import Mathlib

/-!
Shallow embedding of the generational slot arena from `src/src/lib.rs`
(crate `typed_garena`), together with proofs of the specified properties.

The Rust `Vec<Entry<T>>` backing store is modelled as a `List (Entry T)`,
`usize` indices as `Nat`, and `Generation` (`u32`) as `Nat` — generation
overflow is explicitly declared out of scope by the design notes.
Code paths that panic (the `unreachable!()` arms of `insert` and `remove`)
are modelled by returning `none` from `Option`-valued functions, so that
"the unreachable arm is never executed" becomes "the result is `some _`".
-/

set_option autoImplicit false

namespace TypedGarena

/-- `pub type Generation = u32;` — modelled as `Nat` (overflow out of scope). -/
abbrev Generation := Nat

/-- The handle type `ID<T>`: an (index, generation) pair. The phantom type
parameter `T` is kept to mirror the typed handle. Equality compares both
fields, as in the source `PartialEq` impl. -/
structure ID (T : Type) where
  index : Nat
  generation : Generation
  deriving DecidableEq

/-- The internal slot type `Entry<T>`: either `Free { next_generation, next_free }`
or `Occupied(generation, value)`. -/
inductive Entry (T : Type) where
  | Free (next_generation : Generation) (next_free : Option Nat)
  | Occupied (gen : Generation) (val : T)
  deriving DecidableEq

/-- `Arena<T>`: slot storage, free-list head, live count. -/
structure Arena (T : Type) where
  entries : List (Entry T)
  free_list_head : Option Nat
  length : Nat
  deriving DecidableEq

namespace Arena

variable {T : Type}

/-- `Arena::new` -/
def new (T : Type) : Arena T :=
  { entries := [], free_list_head := none, length := 0 }

/-- `Arena::len` -/
def len (a : Arena T) : Nat :=
  a.length

/-- `Arena::is_empty` -/
def is_empty (a : Arena T) : Bool :=
  a.len == 0

/-- `Arena::insert`. The `unreachable!()` arm (free-list head not pointing at a
`Free` entry, or out of range) is modelled as `none`. -/
def insert? (a : Arena T) (item : T) : Option (Arena T × ID T) :=
  match a.free_list_head with
  | some free =>
    match a.entries[free]? with
    | some (Entry.Free next_generation next_free) =>
      some ({ entries := a.entries.set free (Entry.Occupied next_generation item),
              free_list_head := next_free,
              length := a.length + 1 },
            ⟨free, next_generation⟩)
    | _ => none
  | none =>
    some ({ entries := a.entries ++ [Entry.Occupied 0 item],
            free_list_head := none,
            length := a.length + 1 },
          ⟨a.entries.length, 0⟩)

/-- `Arena::get` (and the lookup logic of `get_mut`, which is identical). -/
def get (a : Arena T) (id : ID T) : Option T :=
  match a.entries[id.index]? with
  | some (Entry.Occupied g item) =>
    if id.generation ≠ g then none else some item
  | _ => none

/-- `Arena::get_mut`: same lookup as `get`; the mutable reference is modelled
by the returned value together with `write_mut` below. -/
def get_mut (a : Arena T) (id : ID T) : Option T :=
  match a.entries[id.index]? with
  | some (Entry.Occupied g item) =>
    if id.generation ≠ g then none else some item
  | _ => none

/-- Writing a new value through the mutable reference returned by `get_mut`;
when `get_mut` returns `None` there is no reference and the arena is unchanged. -/
def write_mut (a : Arena T) (id : ID T) (v : T) : Arena T :=
  match a.entries[id.index]? with
  | some (Entry.Occupied g _) =>
    if id.generation ≠ g then a
    else { a with entries := a.entries.set id.index (Entry.Occupied g v) }
  | _ => a

/-- `Arena::contains` -/
def contains (a : Arena T) (id : ID T) : Bool :=
  (a.get id).isSome

/-- `Arena::remove`. Outer `Option` models the `unreachable!()` arm;
the inner `Option T` is the function's ordinary return value
(`none` = absent, no mutation). The new `Free` entry records the current
free-list head as its `next_free`, but the source never reassigns
`self.free_list_head` itself, so the head field is left unchanged here. -/
def remove? (a : Arena T) (id : ID T) : Option (Arena T × Option T) :=
  if ¬ a.contains id then
    some (a, none)
  else
    let new_entry := Entry.Free (id.generation + 1) a.free_list_head
    match a.entries[id.index]? with
    | some (Entry.Occupied _ item) =>
      some ({ entries := a.entries.set id.index new_entry,
              free_list_head := a.free_list_head,
              length := a.length - 1 },
            some item)
    | _ => none

end Arena

/-- The borrowed iterator `Iter<'a, T>`: remaining slice plus absolute index
of its first element. -/
structure Iter (T : Type) where
  entries : List (Entry T)
  index : Nat
  deriving DecidableEq

/-- `Arena::iter` -/
def Arena.iter {T : Type} (a : Arena T) : Iter T :=
  { entries := a.entries, index := 0 }

/-- The loop body of `Iterator::next` for `Iter`: pop the first slot, skipping
`Free` slots, reconstructing the handle from the stored generation. -/
def iterNextAux {T : Type} : List (Entry T) → Nat → Option ((ID T × T) × Iter T)
  | [], _ => none
  | Entry.Occupied g t :: rest, index => some ((⟨index, g⟩, t), ⟨rest, index + 1⟩)
  | Entry.Free _ _ :: rest, index => iterNextAux rest (index + 1)

/-- `Iterator::next` for `Iter`. -/
def Iter.next {T : Type} (it : Iter T) : Option ((ID T × T) × Iter T) :=
  iterNextAux it.entries it.index

/-- `split_last` on a slice: `some (init, last)` for a non-empty list. -/
def splitLast? {α : Type} : List α → Option (List α × α)
  | [] => none
  | [a] => some ([], a)
  | a :: b :: rest => (splitLast? (b :: rest)).map (fun p => (a :: p.1, p.2))

theorem splitLast?_length {α : Type} :
    ∀ (l : List α) (o : List α) (x : α), splitLast? l = some (o, x) → o.length + 1 = l.length
  | [], o, x, h => by simp [splitLast?] at h
  | [a], o, x, h => by
    simp [splitLast?] at h
    simp [h.1.symm]
  | a :: b :: rest, o, x, h => by
    simp only [splitLast?, Option.map_eq_some'] at h
    obtain ⟨⟨o', x'⟩, hrec, heq⟩ := h
    have := splitLast?_length (b :: rest) o' x' hrec
    cases heq
    simp at this ⊢
    omega

/-- `DoubleEndedIterator::next_back` for `Iter`: split off the last slot,
skip it if `Free`, otherwise yield it with index `self.index + others.len()`. -/
def Iter.next_back {T : Type} (it : Iter T) : Option ((ID T × T) × Iter T) :=
  match h : splitLast? it.entries with
  | none => none
  | some (others, last) =>
    match last with
    | Entry.Occupied g t => some ((⟨it.index + others.length, g⟩, t), ⟨others, it.index⟩)
    | Entry.Free _ _ => Iter.next_back ⟨others, it.index⟩
termination_by it.entries.length
decreasing_by
  have := splitLast?_length it.entries others _ h
  simp
  omega

theorem iterNextAux_length {T : Type} :
    ∀ (l : List (Entry T)) (i : Nat) (p : ID T × T) (it' : Iter T),
      iterNextAux l i = some (p, it') → it'.entries.length < l.length
  | [], _, _, _, h => by simp [iterNextAux] at h
  | Entry.Occupied g t :: rest, i, p, it', h => by
    simp [iterNextAux] at h
    simp [← h.2]
  | Entry.Free g nf :: rest, i, p, it', h => by
    simp only [iterNextAux] at h
    have := iterNextAux_length rest (i + 1) p it' h
    simp
    omega

theorem Iter.next_length {T : Type} (it : Iter T) (p : ID T × T) (it' : Iter T)
    (h : it.next = some (p, it')) : it'.entries.length < it.entries.length :=
  iterNextAux_length it.entries it.index p it' h

theorem Iter.next_back_length {T : Type} (it : Iter T) (p : ID T × T) (it' : Iter T)
    (h : it.next_back = some (p, it')) : it'.entries.length < it.entries.length := by
  have H : ∀ (n : Nat) (it : Iter T) (p : ID T × T) (it' : Iter T),
      it.entries.length = n → it.next_back = some (p, it') →
      it'.entries.length < it.entries.length := by
    intro n
    induction n using Nat.strong_induction_on with
    | _ n ih =>
      intro it p it' hl h
      rw [Iter.next_back] at h
      split at h
      · exact absurd h (by simp)
      case _ others last heq =>
        have hlen := splitLast?_length it.entries others last heq
        cases last with
        | Occupied g t =>
          simp at h
          have hs : it'.entries.length = others.length := by rw [← h.2]
          omega
        | Free g nf =>
          have hrec := ih others.length (by omega) ⟨others, it.index⟩ p it' rfl h
          have hr2 : it'.entries.length < others.length := hrec
          omega
  exact H it.entries.length it p it' rfl h

/-- Consuming an iterator from the front: repeated `next` until exhaustion. -/
def consumeFwd {T : Type} (it : Iter T) : List (ID T × T) :=
  match h : it.next with
  | none => []
  | some (p, it') => p :: consumeFwd it'
termination_by it.entries.length
decreasing_by exact Iter.next_length it _ _ h

/-- Consuming an iterator from the back: repeated `next_back` until exhaustion. -/
def consumeBwd {T : Type} (it : Iter T) : List (ID T × T) :=
  match h : it.next_back with
  | none => []
  | some (p, it') => p :: consumeBwd it'
termination_by it.entries.length
decreasing_by exact Iter.next_back_length it _ _ h

/-- The (handle, value) pairs of the Occupied slots of a slot list, in slot
order, handles reconstructed from the stored generations; `i` is the absolute
index of the list's first slot. -/
def occupiedPairs {T : Type} : List (Entry T) → Nat → List (ID T × T)
  | [], _ => []
  | Entry.Occupied g t :: rest, i => (⟨i, g⟩, t) :: occupiedPairs rest (i + 1)
  | Entry.Free _ _ :: rest, i => occupiedPairs rest (i + 1)

theorem consumeFwd_nil {T : Type} (it : Iter T) (h : it.next = none) :
    consumeFwd it = [] := by
  rw [consumeFwd]
  split
  · rfl
  · simp_all

theorem consumeFwd_cons {T : Type} (it : Iter T) (p : ID T × T) (it' : Iter T)
    (h : it.next = some (p, it')) : consumeFwd it = p :: consumeFwd it' := by
  rw [consumeFwd]
  split
  · simp_all
  · simp_all

theorem consumeBwd_nil {T : Type} (it : Iter T) (h : it.next_back = none) :
    consumeBwd it = [] := by
  rw [consumeBwd]
  split
  · rfl
  · simp_all

theorem consumeBwd_cons {T : Type} (it : Iter T) (p : ID T × T) (it' : Iter T)
    (h : it.next_back = some (p, it')) : consumeBwd it = p :: consumeBwd it' := by
  rw [consumeBwd]
  split
  · simp_all
  · simp_all

theorem consumeFwd_eq_occupiedPairs {T : Type} :
    ∀ (l : List (Entry T)) (i : Nat), consumeFwd ⟨l, i⟩ = occupiedPairs l i
  | [], i => consumeFwd_nil _ rfl
  | Entry.Occupied g t :: rest, i => by
    rw [consumeFwd_cons ⟨Entry.Occupied g t :: rest, i⟩ (⟨i, g⟩, t) ⟨rest, i + 1⟩ rfl]
    rw [consumeFwd_eq_occupiedPairs rest (i + 1)]
    rfl
  | Entry.Free g nf :: rest, i => by
    have hcongr : consumeFwd (⟨Entry.Free g nf :: rest, i⟩ : Iter T) = consumeFwd ⟨rest, i + 1⟩ := by
      cases hn : iterNextAux rest (i + 1) with
      | none =>
        rw [consumeFwd_nil ⟨Entry.Free g nf :: rest, i⟩ hn,
            consumeFwd_nil ⟨rest, i + 1⟩ hn]
      | some pit =>
        obtain ⟨p, it'⟩ := pit
        rw [consumeFwd_cons ⟨Entry.Free g nf :: rest, i⟩ p it' hn,
            consumeFwd_cons ⟨rest, i + 1⟩ p it' hn]
    rw [hcongr, consumeFwd_eq_occupiedPairs rest (i + 1)]
    rfl

theorem splitLast?_concat {α : Type} (a : α) :
    ∀ (l : List α), splitLast? (l ++ [a]) = some (l, a)
  | [] => rfl
  | b :: rest => by
    have hne : rest ++ [a] ≠ [] := by simp
    rw [List.cons_append]
    cases hr : rest ++ [a] with
    | nil => exact absurd hr hne
    | cons c cs =>
      show (splitLast? (c :: cs)).map _ = _
      rw [← hr, splitLast?_concat a rest]
      rfl

theorem occupiedPairs_append {T : Type} :
    ∀ (l₁ l₂ : List (Entry T)) (i : Nat),
      occupiedPairs (l₁ ++ l₂) i = occupiedPairs l₁ i ++ occupiedPairs l₂ (i + l₁.length)
  | [], l₂, i => by simp [occupiedPairs]
  | Entry.Occupied g t :: rest, l₂, i => by
    have harith : i + 1 + rest.length = i + (rest.length + 1) := by omega
    simp only [List.cons_append, occupiedPairs, List.append_eq,
      occupiedPairs_append rest l₂ (i + 1), harith, List.length_cons]
  | Entry.Free g nf :: rest, l₂, i => by
    have harith : i + 1 + rest.length = i + (rest.length + 1) := by omega
    simp only [List.cons_append, occupiedPairs, List.append_eq,
      occupiedPairs_append rest l₂ (i + 1), harith, List.length_cons]

theorem next_back_nil {T : Type} (i : Nat) :
    Iter.next_back (⟨[], i⟩ : Iter T) = none := by
  rw [Iter.next_back]
  rfl

theorem next_back_concat_occupied {T : Type} (l : List (Entry T)) (g : Generation) (t : T)
    (i : Nat) :
    Iter.next_back (⟨l ++ [Entry.Occupied g t], i⟩ : Iter T) =
      some ((⟨i + l.length, g⟩, t), ⟨l, i⟩) := by
  rw [Iter.next_back]
  split
  · simp_all [splitLast?_concat]
  case _ others last heq =>
    have : (⟨l ++ [Entry.Occupied g t], i⟩ : Iter T).entries = l ++ [Entry.Occupied g t] := rfl
    rw [this, splitLast?_concat] at heq
    cases heq
    rfl

theorem next_back_concat_free {T : Type} (l : List (Entry T)) (g : Generation)
    (nf : Option Nat) (i : Nat) :
    Iter.next_back (⟨l ++ [Entry.Free g nf], i⟩ : Iter T) =
      Iter.next_back (⟨l, i⟩ : Iter T) := by
  rw [Iter.next_back]
  split
  · simp_all [splitLast?_concat]
  case _ others last heq =>
    have : (⟨l ++ [Entry.Free g nf], i⟩ : Iter T).entries = l ++ [Entry.Free g nf] := rfl
    rw [this, splitLast?_concat] at heq
    cases heq
    rfl

theorem consumeBwd_eq_occupiedPairs {T : Type} (l : List (Entry T)) (i : Nat) :
    consumeBwd (⟨l, i⟩ : Iter T) = (occupiedPairs l i).reverse := by
  induction l using List.reverseRecOn with
  | nil => rw [consumeBwd_nil _ (next_back_nil i)]; rfl
  | append_singleton l e ih =>
    cases e with
    | Occupied g t =>
      rw [consumeBwd_cons ⟨l ++ [Entry.Occupied g t], i⟩ (⟨i + l.length, g⟩, t) ⟨l, i⟩
            (next_back_concat_occupied l g t i),
          ih, occupiedPairs_append l [Entry.Occupied g t] i]
      simp [occupiedPairs]
    | Free g nf =>
      have hstep : consumeBwd (⟨l ++ [Entry.Free g nf], i⟩ : Iter T) =
          consumeBwd (⟨l, i⟩ : Iter T) := by
        cases hn : Iter.next_back (⟨l, i⟩ : Iter T) with
        | none =>
          rw [consumeBwd_nil ⟨l ++ [Entry.Free g nf], i⟩
                ((next_back_concat_free l g nf i).trans hn),
              consumeBwd_nil ⟨l, i⟩ hn]
        | some pit =>
          obtain ⟨p, it'⟩ := pit
          rw [consumeBwd_cons ⟨l ++ [Entry.Free g nf], i⟩ p it'
                ((next_back_concat_free l g nf i).trans hn),
              consumeBwd_cons ⟨l, i⟩ p it' hn]
      rw [hstep, ih, occupiedPairs_append l [Entry.Free g nf] i]
      simp [occupiedPairs]

theorem mem_occupiedPairs_iff {T : Type} :
    ∀ (l : List (Entry T)) (k i : Nat) (g : Generation) (t : T),
      (⟨i, g⟩, t) ∈ occupiedPairs l k ↔
        ∃ j, i = k + j ∧ l[j]? = some (Entry.Occupied g t)
  | [], k, i, g, t => by simp [occupiedPairs]
  | Entry.Occupied g' t' :: rest, k, i, g, t => by
    simp only [occupiedPairs, List.mem_cons, mem_occupiedPairs_iff rest (k + 1) i g t,
      Prod.mk.injEq, ID.mk.injEq]
    constructor
    · rintro (⟨⟨hik, hg⟩, ht⟩ | ⟨j, hj, hget⟩)
      · exact ⟨0, by omega, by simp [hg, ht]⟩
      · exact ⟨j + 1, by omega, by simpa using hget⟩
    · rintro ⟨j, hj, hget⟩
      cases j with
      | zero =>
        simp at hget
        exact Or.inl ⟨⟨by omega, hget.1.symm⟩, hget.2.symm⟩
      | succ j =>
        exact Or.inr ⟨j, by omega, by simpa using hget⟩
  | Entry.Free g' nf :: rest, k, i, g, t => by
    simp only [occupiedPairs, mem_occupiedPairs_iff rest (k + 1) i g t]
    constructor
    · rintro ⟨j, hj, hget⟩
      exact ⟨j + 1, by omega, by simpa using hget⟩
    · rintro ⟨j, hj, hget⟩
      cases j with
      | zero => simp at hget
      | succ j => exact ⟨j, by omega, by simpa using hget⟩

theorem occupiedPairs_index_lb {T : Type} :
    ∀ (l : List (Entry T)) (k : Nat) (p : ID T × T), p ∈ occupiedPairs l k → k ≤ p.1.index
  | [], k, p, h => by simp [occupiedPairs] at h
  | Entry.Occupied g t :: rest, k, p, h => by
    rcases (List.mem_cons).mp h with heq | hmem
    · simp [heq]
    · have := occupiedPairs_index_lb rest (k + 1) p hmem
      omega
  | Entry.Free g nf :: rest, k, p, h => by
    have := occupiedPairs_index_lb rest (k + 1) p h
    omega

theorem occupiedPairs_sorted {T : Type} :
    ∀ (l : List (Entry T)) (k : Nat),
      (occupiedPairs l k).Pairwise (fun p q => p.1.index < q.1.index)
  | [], k => by simp [occupiedPairs]
  | Entry.Occupied g t :: rest, k => by
    refine List.Pairwise.cons ?_ (occupiedPairs_sorted rest (k + 1))
    intro q hq
    have := occupiedPairs_index_lb rest (k + 1) q hq
    simp only []
    omega
  | Entry.Free g nf :: rest, k => occupiedPairs_sorted rest (k + 1)

/-- Whether an optional slot lookup found a `Free` entry. -/
def isFreeEntry {T : Type} : Option (Entry T) → Bool
  | some (Entry.Free _ _) => true
  | _ => false

/-- Whether a slot is `Occupied`. -/
def isOccupiedEntry {T : Type} : Entry T → Bool
  | Entry.Occupied _ _ => true
  | _ => false

/-- Number of Occupied slots of a slot list. -/
def countOccupied {T : Type} (entries : List (Entry T)) : Nat :=
  entries.countP isOccupiedEntry

/-- `FreeChain entries head l`: following the `next_free` links from `head`
visits exactly the indices in `l`, in order, each pointing at a `Free` entry,
terminating in `none`. -/
inductive FreeChain {T : Type} (entries : List (Entry T)) : Option Nat → List Nat → Prop
  | nil : FreeChain entries none []
  | cons {i : Nat} {g : Generation} {nf : Option Nat} {rest : List Nat} :
      entries[i]? = some (Entry.Free g nf) →
      FreeChain entries nf rest →
      FreeChain entries (some i) (i :: rest)

/-- Free-list soundness for an arena: the chain of `next_free` links from the
free-list head visits exactly the indices of the Free slots, each exactly once,
terminating in `none` with no cycles. -/
def FreeListOK {T : Type} (a : Arena T) : Prop :=
  ∃ fl : List Nat, FreeChain a.entries a.free_list_head fl ∧ fl.Nodup ∧
    ∀ i : Nat, i ∈ fl ↔ isFreeEntry a.entries[i]? = true

/-- The arena's internal invariant, as actually maintained by the source:
`remove` never pushes freed slots onto the free list, and nothing else ever
assigns a `some` head, so the free-list head stays `none` in every reachable
state; and the live count equals the number of Occupied slots. -/
def Inv {T : Type} (a : Arena T) : Prop :=
  a.free_list_head = none ∧ a.length = countOccupied a.entries

/-- One public mutating operation: an insert, a remove (successful or not),
or a write through `get_mut`. Panicking runs (the `none` results of `insert?`
and `remove?`) are not steps. -/
inductive StepTo {T : Type} : Arena T → Arena T → Prop
  | insert (a a' : Arena T) (v : T) (id : ID T) :
      a.insert? v = some (a', id) → StepTo a a'
  | remove (a a' : Arena T) (id : ID T) (r : Option T) :
      a.remove? id = some (a', r) → StepTo a a'
  | mutate (a : Arena T) (id : ID T) (v : T) :
      StepTo a (a.write_mut id v)

/-- Any finite sequence of operations. -/
def Steps {T : Type} : Arena T → Arena T → Prop :=
  Relation.ReflTransGen StepTo

/-- Arena states reachable from `Arena::new` by inserts, removes, and
writes through `get_mut`. -/
def Reachable {T : Type} (a : Arena T) : Prop :=
  Steps (Arena.new T) a

theorem FreeChain.none_inv {T : Type} {entries : List (Entry T)} {l : List Nat}
    (h : FreeChain entries none l) : l = [] := by
  cases h with
  | nil => rfl

theorem countP_set_add {α : Type} (p : α → Bool) :
    ∀ (l : List α) (j : Nat) (x e : α), l[j]? = some x →
      (l.set j e).countP p + (if p x then 1 else 0) =
        l.countP p + (if p e then 1 else 0)
  | [], j, x, e, h => by simp at h
  | a :: rest, 0, x, e, h => by
    have hx : a = x := by simpa using h
    subst hx
    simp only [List.set_cons_zero, List.countP_cons]
    omega
  | a :: rest, j + 1, x, e, h => by
    simp only [List.set_cons_succ, List.countP_cons]
    have := countP_set_add p rest j x e (by simpa using h)
    omega

namespace Arena

variable {T : Type}

theorem get_eq_some_iff (a : Arena T) (id : ID T) (t : T) :
    a.get id = some t ↔ a.entries[id.index]? = some (Entry.Occupied id.generation t) := by
  unfold get
  cases heq : a.entries[id.index]? with
  | none => simp
  | some e =>
    cases e with
    | Occupied g item =>
      by_cases hg : id.generation = g
      · subst hg
        simp
      · simp [hg, Ne.symm hg]
    | Free g nf => simp

theorem get_mut_eq_get (a : Arena T) (id : ID T) : a.get_mut id = a.get id := rfl

theorem contains_iff (a : Arena T) (id : ID T) :
    a.contains id = true ↔
      ∃ t, a.entries[id.index]? = some (Entry.Occupied id.generation t) := by
  unfold contains
  rw [Option.isSome_iff_exists]
  exact exists_congr fun t => get_eq_some_iff a id t

theorem contains_false_iff (a : Arena T) (id : ID T) :
    a.contains id = false ↔ a.get id = none := by
  unfold contains
  cases h : a.get id <;> simp [h]

theorem insert?_cases (a : Arena T) (v : T) (a' : Arena T) (id : ID T)
    (h : a.insert? v = some (a', id)) :
    (∃ free g nf, a.free_list_head = some free ∧
      a.entries[free]? = some (Entry.Free g nf) ∧ id = ⟨free, g⟩ ∧
      a' = { entries := a.entries.set free (Entry.Occupied g v),
             free_list_head := nf, length := a.length + 1 }) ∨
    (a.free_list_head = none ∧ id = ⟨a.entries.length, 0⟩ ∧
      a' = { entries := a.entries ++ [Entry.Occupied 0 v],
             free_list_head := none, length := a.length + 1 }) := by
  unfold insert? at h
  cases hh : a.free_list_head with
  | none =>
    rw [hh] at h
    right
    simp at h
    exact ⟨rfl, h.2.symm, h.1.symm⟩
  | some free =>
    rw [hh] at h
    left
    cases he : a.entries[free]? with
    | none => simp [he] at h
    | some e =>
      cases e with
      | Free g nf =>
        simp [he] at h
        exact ⟨free, g, nf, rfl, he, h.2.symm, h.1.symm⟩
      | Occupied g t => simp [he] at h

theorem remove?_not_contains (a : Arena T) (id : ID T) (h : a.contains id = false) :
    a.remove? id = some (a, none) := by
  unfold remove?
  simp [h]

theorem remove?_contains (a : Arena T) (id : ID T) (t : T)
    (h : a.entries[id.index]? = some (Entry.Occupied id.generation t)) :
    a.remove? id =
      some ({ entries := a.entries.set id.index
                (Entry.Free (id.generation + 1) a.free_list_head),
              free_list_head := a.free_list_head, length := a.length - 1 },
            some t) := by
  have hc : a.contains id = true := (contains_iff a id).mpr ⟨t, h⟩
  unfold remove?
  simp [hc, h]

theorem remove?_cases (a : Arena T) (id : ID T) (a' : Arena T) (r : Option T)
    (h : a.remove? id = some (a', r)) :
    (a.contains id = false ∧ a' = a ∧ r = none) ∨
    (∃ t, a.entries[id.index]? = some (Entry.Occupied id.generation t) ∧
      a' = { entries := a.entries.set id.index
               (Entry.Free (id.generation + 1) a.free_list_head),
             free_list_head := a.free_list_head, length := a.length - 1 } ∧
      r = some t) := by
  cases hc : a.contains id with
  | false =>
    left
    rw [remove?_not_contains a id hc] at h
    simp at h
    exact ⟨rfl, h.1.symm, h.2.symm⟩
  | true =>
    right
    obtain ⟨t, ht⟩ := (contains_iff a id).mp hc
    rw [remove?_contains a id t ht] at h
    simp at h
    exact ⟨t, ht, h.1.symm, h.2.symm⟩

/-- `remove` never hits its `unreachable!()` arm, in any state: the `contains`
guard already guarantees the slot is Occupied. -/
theorem remove?_isSome (a : Arena T) (id : ID T) : (a.remove? id).isSome := by
  cases hc : a.contains id with
  | false => rw [remove?_not_contains a id hc]; rfl
  | true =>
    obtain ⟨t, ht⟩ := (contains_iff a id).mp hc
    rw [remove?_contains a id t ht]
    rfl

end Arena

theorem getElem?_set_self_of_lt {α : Type} (l : List α) (i : Nat) (x : α)
    (h : i < l.length) : (l.set i x)[i]? = some x := by
  simp [List.getElem?_set_self', List.getElem?_eq_getElem h]

theorem Arena.write_mut_cases {T : Type} (a : Arena T) (id : ID T) (v : T) :
    a.write_mut id v = a ∨
    ∃ w, a.entries[id.index]? = some (Entry.Occupied id.generation w) ∧
      a.write_mut id v =
        { a with entries :=
            a.entries.set id.index (Entry.Occupied id.generation v) } := by
  unfold Arena.write_mut
  cases he : a.entries[id.index]? with
  | none => left; rfl
  | some e =>
    cases e with
    | Free g nf => left; rfl
    | Occupied g w =>
      by_cases hg : id.generation = g
      · subst hg
        right
        exact ⟨w, rfl, by simp⟩
      · left
        simp [hg]

theorem Inv.new_arena (T : Type) : Inv (Arena.new T) :=
  ⟨rfl, rfl⟩

theorem Inv.preserve_insert {T : Type} {a a' : Arena T} {v : T} {id : ID T}
    (ha : Inv a) (h : a.insert? v = some (a', id)) : Inv a' := by
  obtain ⟨hh, hlen⟩ := ha
  rcases Arena.insert?_cases a v a' id h with
    ⟨free, g, nf, hh', he, hid, ha'⟩ | ⟨hh', hid, ha'⟩
  · rw [hh] at hh'
    exact absurd hh' (by simp)
  · rw [ha']
    refine ⟨rfl, ?_⟩
    show a.length + 1 = countOccupied (a.entries ++ [Entry.Occupied 0 v])
    simp [countOccupied, isOccupiedEntry] at hlen ⊢
    omega

theorem Inv.preserve_remove {T : Type} {a a' : Arena T} {id : ID T} {r : Option T}
    (ha : Inv a) (h : a.remove? id = some (a', r)) : Inv a' := by
  obtain ⟨hh, hlen⟩ := ha
  rcases Arena.remove?_cases a id a' r h with ⟨hc, rfl, hr⟩ | ⟨t, ht, ha', hr⟩
  · exact ⟨hh, hlen⟩
  · rw [ha']
    refine ⟨hh, ?_⟩
    show a.length - 1 =
      countOccupied (a.entries.set id.index (Entry.Free (id.generation + 1) a.free_list_head))
    have hcnt := countP_set_add isOccupiedEntry a.entries id.index
      (Entry.Occupied id.generation t) (Entry.Free (id.generation + 1) a.free_list_head) ht
    simp [isOccupiedEntry] at hcnt
    simp only [countOccupied] at hlen ⊢
    omega

theorem Inv.preserve_write_mut {T : Type} {a : Arena T} (id : ID T) (v : T) (ha : Inv a) :
    Inv (a.write_mut id v) := by
  obtain ⟨hh, hlen⟩ := ha
  rcases Arena.write_mut_cases a id v with heq | ⟨w, he, heq⟩
  · rw [heq]
    exact ⟨hh, hlen⟩
  · rw [heq]
    refine ⟨hh, ?_⟩
    show a.length =
      countOccupied (a.entries.set id.index (Entry.Occupied id.generation v))
    have hcnt := countP_set_add isOccupiedEntry a.entries id.index
      (Entry.Occupied id.generation w) (Entry.Occupied id.generation v) he
    simp [isOccupiedEntry] at hcnt
    simp only [countOccupied] at hlen ⊢
    omega

theorem Inv.preserve_step {T : Type} {a a' : Arena T} (h : StepTo a a') (ha : Inv a) :
    Inv a' := by
  cases h with
  | insert _ v id hi => exact Inv.preserve_insert ha hi
  | remove _ id r hr => exact Inv.preserve_remove ha hr
  | mutate id v => exact Inv.preserve_write_mut id v ha

theorem Reachable.inv {T : Type} {a : Arena T} (h : Reachable a) : Inv a := by
  induction h with
  | refl => exact Inv.new_arena T
  | tail hsteps hstep ih => exact Inv.preserve_step hstep ih

theorem mem_of_getElem?_eq_some {α : Type} {l : List α} {n : Nat} {a : α}
    (h : l[n]? = some a) : a ∈ l := by
  rcases List.getElem?_eq_some.mp h with ⟨hlt, rfl⟩
  exact List.getElem_mem hlt

namespace Arena

variable {T : Type}

theorem insert?_free_head (a : Arena T) (v : T) {free : Nat} {g : Generation}
    {nf : Option Nat} (hh : a.free_list_head = some free)
    (he : a.entries[free]? = some (Entry.Free g nf)) :
    a.insert? v =
      some ({ entries := a.entries.set free (Entry.Occupied g v),
              free_list_head := nf, length := a.length + 1 },
            ⟨free, g⟩) := by
  unfold insert?
  rw [hh]
  simp only [he]

theorem insert?_no_head (a : Arena T) (v : T) (hh : a.free_list_head = none) :
    a.insert? v =
      some ({ entries := a.entries ++ [Entry.Occupied 0 v],
              free_list_head := none, length := a.length + 1 },
            ⟨a.entries.length, 0⟩) := by
  unfold insert?
  rw [hh]

/-- `insert` never hits its `unreachable!()` arm in a state satisfying the
invariant: the free-list head is `none` in every reachable state, so every
insert appends. -/
theorem insert?_total (a : Arena T) (hinv : Inv a) (v : T) :
    ∃ (a' : Arena T) (id : ID T), a.insert? v = some (a', id) :=
  ⟨_, _, insert?_no_head a v hinv.1⟩

end Arena

/-- The generation stored in a slot, whether Occupied (its creation generation)
or Free (its `next_generation`). -/
def slotGen {T : Type} : Option (Entry T) → Option Generation
  | some (Entry.Free g _) => some g
  | some (Entry.Occupied g _) => some g
  | none => none

theorem slotGen_step_mono {T : Type} {a a' : Arena T} (h : StepTo a a') (i : Nat)
    (g : Generation) (hg : slotGen a.entries[i]? = some g) :
    ∃ g', slotGen a'.entries[i]? = some g' ∧ g ≤ g' := by
  cases h with
  | insert _ v id hi =>
    rcases Arena.insert?_cases _ v _ id hi with
      ⟨free, gf, nf, hh, he, hid, ha'⟩ | ⟨hh, hid, ha'⟩
    · have hent : a'.entries = a.entries.set free (Entry.Occupied gf v) := by rw [ha']
      by_cases hif : i = free
      · have hlt := (List.getElem?_eq_some.mp he).1
        rw [hent, hif, getElem?_set_self_of_lt a.entries free (Entry.Occupied gf v) hlt]
        rw [hif, he] at hg
        have hgeq : gf = g := by simpa [slotGen] using hg
        exact ⟨gf, by simp [slotGen], Nat.le_of_eq hgeq.symm⟩
      · have hne : free ≠ i := Ne.symm hif
        rw [hent, List.getElem?_set_ne hne]
        exact ⟨g, hg, Nat.le_refl g⟩
    · have hent : a'.entries = a.entries ++ [Entry.Occupied 0 v] := by rw [ha']
      have hlt : i < a.entries.length := by
        by_contra hge
        rw [List.getElem?_eq_none (by omega)] at hg
        simp [slotGen] at hg
      rw [hent, List.getElem?_append_left hlt]
      exact ⟨g, hg, Nat.le_refl g⟩
  | remove _ id r hr =>
    rcases Arena.remove?_cases _ id _ r hr with ⟨hc, rfl, hrr⟩ | ⟨t, ht, ha', hrr⟩
    · exact ⟨g, hg, Nat.le_refl g⟩
    · have hent : a'.entries =
          a.entries.set id.index (Entry.Free (id.generation + 1) a.free_list_head) := by
        rw [ha']
      by_cases hif : i = id.index
      · have hlt := (List.getElem?_eq_some.mp ht).1
        rw [hent, hif, getElem?_set_self_of_lt a.entries id.index
          (Entry.Free (id.generation + 1) a.free_list_head) hlt]
        rw [hif, ht] at hg
        have hgeq : id.generation = g := by simpa [slotGen] using hg
        exact ⟨id.generation + 1, by simp [slotGen],
          Nat.le_trans (Nat.le_of_eq hgeq.symm) (Nat.le_succ _)⟩
      · have hne : id.index ≠ i := Ne.symm hif
        rw [hent, List.getElem?_set_ne hne]
        exact ⟨g, hg, Nat.le_refl g⟩
  | mutate id v =>
    rcases Arena.write_mut_cases a id v with heq | ⟨w, he, heq⟩
    · rw [heq]
      exact ⟨g, hg, Nat.le_refl g⟩
    · have hent : (a.write_mut id v).entries =
          a.entries.set id.index (Entry.Occupied id.generation v) := by
        rw [heq]
      by_cases hif : i = id.index
      · have hlt := (List.getElem?_eq_some.mp he).1
        rw [hent, hif, getElem?_set_self_of_lt a.entries id.index
          (Entry.Occupied id.generation v) hlt]
        rw [hif, he] at hg
        have hgeq : id.generation = g := by simpa [slotGen] using hg
        exact ⟨id.generation, by simp [slotGen], Nat.le_of_eq hgeq.symm⟩
      · have hne : id.index ≠ i := Ne.symm hif
        rw [hent, List.getElem?_set_ne hne]
        exact ⟨g, hg, Nat.le_refl g⟩

theorem slotGen_steps_mono {T : Type} {a b : Arena T} (h : Steps a b) (i : Nat)
    (g : Generation) (hg : slotGen a.entries[i]? = some g) :
    ∃ g', slotGen b.entries[i]? = some g' ∧ g ≤ g' := by
  induction h with
  | refl => exact ⟨g, hg, Nat.le_refl g⟩
  | tail hs hstep ih =>
    obtain ⟨g1, hg1, hle1⟩ := ih
    obtain ⟨g2, hg2, hle2⟩ := slotGen_step_mono hstep i g1 hg1
    exact ⟨g2, hg2, Nat.le_trans hle1 hle2⟩

theorem contains_false_of_gen_lt {T : Type} (a : Arena T) (id : ID T) (g : Generation)
    (hg : slotGen a.entries[id.index]? = some g) (hlt : id.generation < g) :
    a.contains id = false := by
  cases hc : a.contains id with
  | false => rfl
  | true =>
    exfalso
    obtain ⟨t, ht⟩ := (Arena.contains_iff a id).mp hc
    rw [ht] at hg
    have hgen : id.generation = g := by simpa [slotGen] using hg
    exact absurd (hgen ▸ hlt) (Nat.lt_irrefl _)

end TypedGarena

namespace TypedGarena

theorem consumeFwd_iter {T : Type} (a : Arena T) :
    consumeFwd a.iter = occupiedPairs a.entries 0 :=
  consumeFwd_eq_occupiedPairs a.entries 0

theorem consumeBwd_iter {T : Type} (a : Arena T) :
    consumeBwd a.iter = (occupiedPairs a.entries 0).reverse :=
  consumeBwd_eq_occupiedPairs a.entries 0

/-- Scenario A, step 1: after inserting "a" into a new string arena. -/
def scenarioA1 : Arena String :=
  { entries := [Entry.Occupied 0 "a"], free_list_head := none, length := 1 }

/-- Scenario A, step 2: after inserting "b". -/
def scenarioA2 : Arena String :=
  { entries := [Entry.Occupied 0 "a", Entry.Occupied 0 "b"],
    free_list_head := none, length := 2 }

/-- Scenario A, step 3: after inserting "c". -/
def scenarioA3 : Arena String :=
  { entries := [Entry.Occupied 0 "a", Entry.Occupied 0 "b", Entry.Occupied 0 "c"],
    free_list_head := none, length := 3 }

/-- Scenario A, step 4: after removing the handle (index 1, generation 0).
The slot is vacated (`Free` with `next_generation` 1 and `next_free` set to
the head at removal time), but the free-list head itself stays `none`:
the source's `remove` never pushes the freed slot. -/
def scenarioA4 : Arena String :=
  { entries := [Entry.Occupied 0 "a", Entry.Free 1 none, Entry.Occupied 0 "c"],
    free_list_head := none, length := 2 }

/-- Scenario A, step 5: after inserting "d". Because the free list is still
empty, the insert appends a fresh slot at index 3 with generation 0 instead of
reusing slot 1. -/
def scenarioA5 : Arena String :=
  { entries := [Entry.Occupied 0 "a", Entry.Free 1 none, Entry.Occupied 0 "c",
                Entry.Occupied 0 "d"],
    free_list_head := none, length := 3 }

theorem reachable_scenarioA1 : Reachable scenarioA1 :=
  Relation.ReflTransGen.tail Relation.ReflTransGen.refl
    (StepTo.insert (Arena.new String) scenarioA1 "a" ⟨0, 0⟩ (by decide))

theorem reachable_scenarioA2 : Reachable scenarioA2 :=
  Relation.ReflTransGen.tail reachable_scenarioA1
    (StepTo.insert scenarioA1 scenarioA2 "b" ⟨1, 0⟩ (by decide))

theorem reachable_scenarioA3 : Reachable scenarioA3 :=
  Relation.ReflTransGen.tail reachable_scenarioA2
    (StepTo.insert scenarioA2 scenarioA3 "c" ⟨2, 0⟩ (by decide))

theorem reachable_scenarioA4 : Reachable scenarioA4 :=
  Relation.ReflTransGen.tail reachable_scenarioA3
    (StepTo.remove scenarioA3 scenarioA4 ⟨1, 0⟩ (some "b") (by decide))

theorem reachable_scenarioA5 : Reachable scenarioA5 :=
  Relation.ReflTransGen.tail reachable_scenarioA4
    (StepTo.insert scenarioA4 scenarioA5 "d" ⟨3, 0⟩ (by decide))

/-- C2: what the code actually does on Scenario A. The first four steps and
the stale lookup match the claim: inserts of "a","b","c" yield handles
(0,0),(1,0),(2,0), removing (1,0) returns "b", and get (1,0) is then absent.
But because `remove` never pushes the freed slot onto the free list, the
subsequent insert of "d" appends a fresh slot and returns the handle
(index 3, generation 0) — not (index 1, generation 1) as the claim states —
and the iterator then yields [((0,0),"a"), ((2,0),"c"), ((3,0),"d")]. -/
theorem C2_scenarioA_actual :
    (Arena.new String).insert? "a" = some (scenarioA1, ⟨0, 0⟩) ∧
    scenarioA1.insert? "b" = some (scenarioA2, ⟨1, 0⟩) ∧
    scenarioA2.insert? "c" = some (scenarioA3, ⟨2, 0⟩) ∧
    scenarioA3.remove? ⟨1, 0⟩ = some (scenarioA4, some "b") ∧
    scenarioA4.get ⟨1, 0⟩ = none ∧
    scenarioA4.insert? "d" = some (scenarioA5, ⟨3, 0⟩) ∧
    consumeFwd scenarioA5.iter =
      [(⟨0, 0⟩, "a"), (⟨2, 0⟩, "c"), (⟨3, 0⟩, "d")] := by
  refine ⟨by decide, by decide, by decide, by decide, by decide, by decide, ?_⟩
  rw [consumeFwd_iter scenarioA5]
  decide

end TypedGarena

namespace TypedGarena

/-- C1: evaluation of the code at the failing input. `Arena::remove`
(lib.rs:44-55) builds the new `Free` entry with `next_free` = current head but
never reassigns `self.free_list_head`, so removing handle (1,0) from the
three-slot arena leaves the head `none` — not `some 1` as the claim requires —
while slot 1 is Free. Hence the resulting state violates free-list soundness:
no chain from the head can contain exactly the Free-slot indices. -/
theorem C1_remove_missing_push :
    scenarioA3.remove? ⟨1, 0⟩ = some (scenarioA4, some "b") ∧
    scenarioA4.free_list_head = none ∧
    isFreeEntry scenarioA4.entries[1]? = true ∧
    ¬ FreeListOK scenarioA4 := by
  refine ⟨by decide, rfl, by decide, ?_⟩
  rintro ⟨fl, hchain, hnodup, hmem⟩
  have hchain' : FreeChain scenarioA4.entries none fl := hchain
  have hnil : fl = [] := hchain'.none_inv
  subst hnil
  have h1 : (1 : Nat) ∈ ([] : List Nat) := (hmem 1).mpr (by decide)
  exact absurd h1 (List.not_mem_nil 1)

/-- C4: in every reachable arena state, `len()` equals the number of Occupied
slots (the number of handles valid against the state); insert increments it by
exactly 1, a successful remove decrements it by exactly 1, and a failed remove
leaves the arena (hence the count) unchanged. -/
theorem C4_count_invariant {T : Type} (a : Arena T) (h : Reachable a) :
    a.len = countOccupied a.entries ∧
    (∀ (v : T) (a' : Arena T) (id : ID T),
      a.insert? v = some (a', id) → a'.len = a.len + 1) ∧
    (∀ (id : ID T) (a' : Arena T) (v : T),
      a.remove? id = some (a', some v) → a.len = a'.len + 1) ∧
    (∀ (id : ID T) (a' : Arena T),
      a.remove? id = some (a', none) → a' = a) := by
  obtain ⟨hfree, hlen⟩ := h.inv
  refine ⟨hlen, ?_, ?_, ?_⟩
  · intro v a' id hins
    rcases Arena.insert?_cases a v a' id hins with
      ⟨free, g, nf, hh, he, hid, ha'⟩ | ⟨hh, hid, ha'⟩ <;>
      rw [ha'] <;> rfl
  · intro id a' v hrem
    rcases Arena.remove?_cases a id a' (some v) hrem with ⟨hc, heq, hr⟩ | ⟨t, ht, ha', hr⟩
    · exact absurd hr (by simp)
    · have hpos : 0 < countOccupied a.entries := by
        refine List.countP_pos_iff.mpr ⟨Entry.Occupied id.generation t, ?_, rfl⟩
        exact mem_of_getElem?_eq_some ht
      rw [ha']
      show a.length = a.length - 1 + 1
      have hlen' : a.length = countOccupied a.entries := hlen
      omega
  · intro id a' hrem
    rcases Arena.remove?_cases a id a' none hrem with ⟨hc, ha', hr⟩ | ⟨t, ht, ha', hr⟩
    · exact ha'
    · exact absurd hr.symm (by simp)

theorem C4_count_invariant_witness :
    scenarioA4.len = countOccupied scenarioA4.entries :=
  (C4_count_invariant scenarioA4 reachable_scenarioA4).1

/-- C5: after a successful `remove(h)`, each of `get(h)`, `get_mut(h)`,
`contains(h)` and `remove(h)` reports absent/false on the resulting state —
so removing twice returns the value once, then absent — and on any state an
invalid handle makes `get`, `get_mut` and `remove` return absent with no
mutation of the arena. -/
theorem C5_removal_invalidation {T : Type} (a a' : Arena T) (id : ID T) (v : T)
    (hrem : a.remove? id = some (a', some v)) :
    (a'.get id = none ∧ a'.get_mut id = none ∧ a'.contains id = false ∧
      a'.remove? id = some (a', none)) ∧
    (∀ (b : Arena T) (j : ID T), b.contains j = false →
      b.get j = none ∧ b.get_mut j = none ∧ b.remove? j = some (b, none)) := by
  have hgen : ∀ (b : Arena T) (j : ID T), b.contains j = false →
      b.get j = none ∧ b.get_mut j = none ∧ b.remove? j = some (b, none) := by
    intro b j hc
    have hg : b.get j = none := (Arena.contains_false_iff b j).mp hc
    exact ⟨hg, (Arena.get_mut_eq_get b j).trans hg, Arena.remove?_not_contains b j hc⟩
  rcases Arena.remove?_cases a id a' (some v) hrem with ⟨hc, heq, hr⟩ | ⟨t, ht, ha', hr⟩
  · exact absurd hr (by simp)
  · have hlt := (List.getElem?_eq_some.mp ht).1
    have hlook : a'.entries[id.index]? =
        some (Entry.Free (id.generation + 1) a.free_list_head) := by
      rw [ha']
      exact getElem?_set_self_of_lt a.entries id.index _ hlt
    have hget : a'.get id = none := by
      unfold Arena.get
      rw [hlook]
    have hcont : a'.contains id = false := by
      unfold Arena.contains
      rw [hget]
      rfl
    exact ⟨⟨hget, (Arena.get_mut_eq_get a' id).trans hget, hcont,
      Arena.remove?_not_contains a' id hcont⟩, hgen⟩

theorem C5_removal_invalidation_witness :
    scenarioA4.get ⟨1, 0⟩ = none ∧ scenarioA4.contains ⟨1, 0⟩ = false ∧
    scenarioA4.remove? ⟨1, 0⟩ = some (scenarioA4, none) := by
  have h := C5_removal_invalidation scenarioA3 scenarioA4 ⟨1, 0⟩ "b" (by decide)
  exact ⟨h.1.1, h.1.2.2.1, h.1.2.2.2⟩

end TypedGarena

namespace TypedGarena

/-- C6: for every arena state, consuming `iter()` forwards yields exactly the
(handle, value) pairs of the Occupied slots — each exactly once, in ascending
slot-index order, handles reconstructed from the stored generations — and
consuming a fresh `iter()` from the back yields the same pairs in descending
index order. -/
theorem C6_iteration {T : Type} (a : Arena T) :
    consumeFwd a.iter = occupiedPairs a.entries 0 ∧
    consumeBwd a.iter = (occupiedPairs a.entries 0).reverse ∧
    (∀ (i : Nat) (g : Generation) (t : T),
      (⟨i, g⟩, t) ∈ occupiedPairs a.entries 0 ↔
        a.entries[i]? = some (Entry.Occupied g t)) ∧
    (occupiedPairs a.entries 0).Pairwise (fun p q => p.1.index < q.1.index) := by
  refine ⟨consumeFwd_iter a, consumeBwd_iter a, ?_, occupiedPairs_sorted a.entries 0⟩
  intro i g t
  rw [mem_occupiedPairs_iff]
  constructor
  · rintro ⟨j, hj, hget⟩
    have : j = i := by omega
    rw [← this]
    exact hget
  · intro h
    exact ⟨i, by omega, h⟩

theorem C6_iteration_witness :
    consumeFwd scenarioA5.iter = occupiedPairs scenarioA5.entries 0 ∧
    consumeBwd scenarioA5.iter = (occupiedPairs scenarioA5.entries 0).reverse := by
  have h := C6_iteration scenarioA5
  exact ⟨h.1, h.2.1⟩

/-- C7: slot generations only ever increase along any sequence of operations;
a successful remove bumps the removed slot's stored generation by exactly 1
(from the removed handle's generation to generation + 1, recorded as the
slot's `next_generation`); an insert that reuses a slot returns the slot's
stored generation — so a reuse of a removed slot would return
(same index, removed generation + 1) — while fresh slots start at
generation 0; a removed handle is never again valid in any later state; and,
because the source's `remove` never feeds the free list, the free-list head is
`none` in every reachable state, so no reachable insert ever actually reuses
a slot (the reuse case of the claim is vacuous for the real program). -/
theorem C7_generation_uniqueness {T : Type} :
    (∀ (a b : Arena T), Steps a b → ∀ (i : Nat) (g : Generation),
      slotGen a.entries[i]? = some g →
      ∃ g', slotGen b.entries[i]? = some g' ∧ g ≤ g') ∧
    (∀ (a a' : Arena T) (id : ID T) (v : T), a.remove? id = some (a', some v) →
      slotGen a.entries[id.index]? = some id.generation ∧
      slotGen a'.entries[id.index]? = some (id.generation + 1)) ∧
    (∀ (a a' : Arena T) (v : T) (h' : ID T),
      a.insert? v = some (a', h') →
      slotGen a.entries[h'.index]? = some h'.generation ∨
      (h'.index = a.entries.length ∧ h'.generation = 0 ∧ a.entries[h'.index]? = none)) ∧
    (∀ (a a' : Arena T) (id : ID T) (v : T) (b : Arena T),
      a.remove? id = some (a', some v) → Steps a' b → b.contains id = false) ∧
    (∀ a : Arena T, Reachable a → a.free_list_head = none) := by
  have hbump : ∀ (a a' : Arena T) (id : ID T) (v : T),
      a.remove? id = some (a', some v) →
      slotGen a.entries[id.index]? = some id.generation ∧
      slotGen a'.entries[id.index]? = some (id.generation + 1) := by
    intro a a' id v h
    rcases Arena.remove?_cases a id a' (some v) h with ⟨hc, heq, hr⟩ | ⟨t, ht, ha', hr⟩
    · exact absurd hr (by simp)
    · have hlt := (List.getElem?_eq_some.mp ht).1
      constructor
      · rw [ht]
        rfl
      · have hent : a'.entries =
            a.entries.set id.index (Entry.Free (id.generation + 1) a.free_list_head) := by
          rw [ha']
        rw [hent, getElem?_set_self_of_lt a.entries id.index _ hlt]
        rfl
  refine ⟨fun a b hs => slotGen_steps_mono hs, hbump, ?_, ?_, ?_⟩
  · intro a a' v h' hins
    rcases Arena.insert?_cases a v a' h' hins with
      ⟨free, g, nf, hh, he, hid, ha'⟩ | ⟨hh, hid, ha'⟩
    · left
      rw [hid, he]
      rfl
    · right
      rw [hid]
      exact ⟨rfl, rfl, by simp⟩
  · intro a a' id v b hrem hsteps
    obtain ⟨hold, hnew⟩ := hbump a a' id v hrem
    obtain ⟨g', hg', hle⟩ := slotGen_steps_mono hsteps id.index (id.generation + 1) hnew
    exact contains_false_of_gen_lt b id g' hg' (Nat.lt_of_lt_of_le (Nat.lt_succ_self _) hle)
  · intro a ha
    exact ha.inv.1

theorem C7_generation_uniqueness_witness :
    scenarioA4.contains ⟨1, 0⟩ = false ∧
    slotGen scenarioA4.entries[1]? = some 1 ∧
    scenarioA4.free_list_head = none := by
  have h := C7_generation_uniqueness (T := String)
  refine ⟨h.2.2.2.1 scenarioA3 scenarioA4 ⟨1, 0⟩ "b" scenarioA4 (by decide)
    Relation.ReflTransGen.refl, ?_, ?_⟩
  · exact (h.2.1 scenarioA3 scenarioA4 ⟨1, 0⟩ "b" (by decide)).2
  · exact h.2.2.2.2 scenarioA4 reachable_scenarioA4

/-- C8: in every reachable arena state, inserting any value succeeds (never
panics, never fails) and an immediate `get` with the returned handle yields
exactly the inserted value. -/
theorem C8_round_trip {T : Type} (a : Arena T) (h : Reachable a) (v : T) :
    ∃ (a' : Arena T) (id : ID T), a.insert? v = some (a', id) ∧ a'.get id = some v := by
  obtain ⟨a', id, hins⟩ := Arena.insert?_total a h.inv v
  refine ⟨a', id, hins, ?_⟩
  rw [Arena.get_eq_some_iff]
  rcases Arena.insert?_cases a v a' id hins with
    ⟨free, g, nf, hh, he, hid, ha'⟩ | ⟨hh, hid, ha'⟩
  · have hlt := (List.getElem?_eq_some.mp he).1
    rw [ha', hid]
    exact getElem?_set_self_of_lt a.entries free _ hlt
  · rw [ha', hid]
    simp

theorem C8_round_trip_witness :
    ∃ (a' : Arena String) (id : ID String),
      scenarioA1.insert? "b" = some (a', id) ∧ a'.get id = some "b" :=
  C8_round_trip scenarioA1 reachable_scenarioA1 "b"

/-- C10: in every reachable arena state, every index on the free-list chain
refers to a Free slot, a successful `contains` means the addressed slot is
Occupied with the handle's generation, and neither `insert` nor `remove` can
hit its internal `unreachable!()` arm (their results are always `some`). -/
theorem C10_internal_safety {T : Type} (a : Arena T) (h : Reachable a) :
    (∃ fl : List Nat, FreeChain a.entries a.free_list_head fl ∧
      ∀ i ∈ fl, ∃ g nf, a.entries[i]? = some (Entry.Free g nf)) ∧
    (∀ v : T, (a.insert? v).isSome = true) ∧
    (∀ id : ID T, (a.remove? id).isSome = true) ∧
    (∀ id : ID T, a.contains id = true →
      ∃ t, a.entries[id.index]? = some (Entry.Occupied id.generation t)) := by
  obtain ⟨hh, hlen⟩ := h.inv
  refine ⟨⟨[], ?_, by simp⟩, ?_, Arena.remove?_isSome a, ?_⟩
  · rw [hh]
    exact FreeChain.nil
  · intro v
    obtain ⟨a', id, hins⟩ := Arena.insert?_total a h.inv v
    rw [hins]
    rfl
  · intro id hc
    exact (Arena.contains_iff a id).mp hc

theorem C10_internal_safety_witness :
    (scenarioA4.insert? "x").isSome = true ∧
    (scenarioA4.remove? ⟨0, 0⟩).isSome = true := by
  have h := C10_internal_safety scenarioA4 reachable_scenarioA4
  exact ⟨h.2.1 "x", h.2.2.1 ⟨0, 0⟩⟩

end TypedGarena

namespace TypedGarena

/-- Modelled from the spec: `insert_with_id` is not present in
`src/src/lib.rs` (the spec documents it as part of the repository's other,
near-identical variant). Per §4.1: same slot-selection logic as `insert`, but
the handle is computed from the arena state before the value is produced, the
value-producing function receives that pre-computed handle, and the slot is
written with the function's result after the function returns. The
`unreachable` arm is modelled as `none`, as for `insert?`. -/
def Arena.insert_with_id {T : Type} (a : Arena T) (builder : ID T → T) :
    Option (Arena T × ID T) :=
  match a.free_list_head with
  | some free =>
    match a.entries[free]? with
    | some (Entry.Free next_generation next_free) =>
      some ({ entries := a.entries.set free
                (Entry.Occupied next_generation (builder ⟨free, next_generation⟩)),
              free_list_head := next_free,
              length := a.length + 1 },
            ⟨free, next_generation⟩)
    | _ => none
  | none =>
    some ({ entries := a.entries ++ [Entry.Occupied 0 (builder ⟨a.entries.length, 0⟩)],
            free_list_head := none,
            length := a.length + 1 },
          ⟨a.entries.length, 0⟩)

/-- Modelled from the spec (§9, self-referential insert): the handle the next
insert will return, computed deterministically from the free-list head (or the
append point) alone — `none` exactly when `insert` would hit its unreachable
arm. -/
def Arena.nextId {T : Type} (a : Arena T) : Option (ID T) :=
  match a.free_list_head with
  | some free =>
    match a.entries[free]? with
    | some (Entry.Free next_generation _) => some ⟨free, next_generation⟩
    | _ => none
  | none => some ⟨a.entries.length, 0⟩

/-- C3: `insert_with_id` selects its slot exactly as `insert` does: it is
`insert` of the builder's value at the pre-computed handle `nextId` — a handle
determined by the arena state alone, before the builder runs; the returned
handle is that pre-computed handle; and the result depends on the builder only
through its value at that one handle (the builder is consulted for exactly one
handle). -/
theorem C3_insert_with_id {T : Type} (a : Arena T) (builder : ID T → T) :
    a.insert_with_id builder = a.nextId.bind (fun id => a.insert? (builder id)) ∧
    (∀ (a' : Arena T) (id : ID T), a.insert_with_id builder = some (a', id) →
      a.nextId = some id) ∧
    (∀ builder' : ID T → T,
      (∀ id : ID T, a.nextId = some id → builder' id = builder id) →
      a.insert_with_id builder' = a.insert_with_id builder) := by
  have key : ∀ b : ID T → T,
      a.insert_with_id b = a.nextId.bind (fun id => a.insert? (b id)) := by
    intro b
    unfold Arena.insert_with_id Arena.nextId Arena.insert?
    cases hh : a.free_list_head with
    | none => rfl
    | some free =>
      cases he : a.entries[free]? with
      | none => simp [he]
      | some e =>
        cases e with
        | Free g nf => simp [he]
        | Occupied g t => simp [he]
  have hnext : ∀ (a' : Arena T) (id : ID T), a.insert_with_id builder = some (a', id) →
      a.nextId = some id := by
    intro a' id h
    rw [key builder] at h
    cases hn : a.nextId with
    | none => rw [hn] at h; exact absurd h (by simp)
    | some nid =>
      rw [hn] at h
      simp only [Option.some_bind] at h
      rcases Arena.insert?_cases a (builder nid) a' id h with
        ⟨free, g, nf, hh, he, hid, ha'⟩ | ⟨hh, hid, ha'⟩
      · have : a.nextId = some ⟨free, g⟩ := by
          unfold Arena.nextId
          rw [hh]
          simp only [he]
        rw [hn] at this
        rw [hid]
        exact this
      · have : a.nextId = some ⟨a.entries.length, 0⟩ := by
          unfold Arena.nextId
          rw [hh]
        rw [hn] at this
        rw [hid]
        exact this
  refine ⟨key builder, hnext, ?_⟩
  intro builder' hagree
  rw [key builder', key builder]
  cases hn : a.nextId with
  | none => rfl
  | some nid =>
    simp only [Option.some_bind]
    rw [hagree nid hn]

/-- A hand-built arena state with a non-empty free list — the shape the spec
intends after a remove — used to exercise the slot-reuse branch of
`insert_with_id` concretely (the theorem itself covers all arena states). -/
def freeListArena : Arena String :=
  { entries := [Entry.Occupied 0 "a", Entry.Free 1 none, Entry.Occupied 0 "c"],
    free_list_head := some 1, length := 2 }

theorem C3_insert_with_id_witness :
    freeListArena.insert_with_id (fun id => toString id.index) =
      freeListArena.nextId.bind
        (fun id => freeListArena.insert? ((fun (j : ID String) => toString j.index) id)) ∧
    freeListArena.nextId = some ⟨1, 1⟩ := by
  refine ⟨(C3_insert_with_id freeListArena (fun id => toString id.index)).1, ?_⟩
  decide

/-- Modelled from the spec: the `Display` implementation for the handle type is
not present in `src/src/lib.rs`; per §6 it renders the bare index when the
generation is 0, and `(index-generation)` otherwise. -/
def ID.display {T : Type} (id : ID T) : String :=
  if id.generation = 0 then toString id.index
  else "(" ++ toString id.index ++ "-" ++ toString id.generation ++ ")"

/-- C9: the handle's display form is the bare index when the generation is 0,
and `(index-generation)` otherwise. -/
theorem C9_display {T : Type} (id : ID T) :
    (id.generation = 0 → id.display = toString id.index) ∧
    (id.generation ≠ 0 →
      id.display = "(" ++ toString id.index ++ "-" ++ toString id.generation ++ ")") := by
  constructor <;> intro h <;> simp [ID.display, h]

theorem C9_display_witness :
    (⟨3, 0⟩ : ID Unit).display = "3" ∧ (⟨1, 2⟩ : ID Unit).display = "(1-2)" := by
  constructor
  · rw [(C9_display (⟨3, 0⟩ : ID Unit)).1 rfl]
    rfl
  · rw [(C9_display (⟨1, 2⟩ : ID Unit)).2 (by decide)]
    rfl

end TypedGarena
